import Mathlib

/-!
Verification of the EVL time-partitioning (TP) scheduler class,
`kernel/evl/sched/tp.c`.

The embedding below translates the TP per-CPU state machine and its
operations into pure Lean functions.  Conventions:

* `ktime_t` values (monotonic-clock nanoseconds) are modelled as `Int`.
* The monotonic clock read `evl_read_clock(&evl_mono_clock)` is modelled
  by passing the observed time `now : Int` into the operation; within one
  call the clock is treated as constant.
* Pointers into the per-CPU partition array (`tp->tps`, `thread->tps`)
  are modelled as the partition index they point to; the idle queue is
  index `-1`, and a NULL pointer is `Option.none`.
* Run queues (`struct evl_sched_queue`) and their operations
  (`evl_init_schedq`, `evl_add_schedq_tail`, `evl_get_schedq`) live in
  headers outside the extracted sources.  Modelled from the spec: a run
  queue is a FIFO list of thread ids and `pick` returns its head.
* The timer (`tp->tf_timer`) is modelled by a running flag plus the last
  programmed expiry date.
* Lock acquisition/release and the reference-count / free operations on
  schedule tables are recorded as an event trace so that ordering claims
  ("after the lock is released", "in the same critical section") can be
  stated.
-/

namespace EvlTp

/-- Errno values used by tp.c (from the kernel's errno tables). -/
def EINVAL : Int := 22

/-- Errno for a busy resource, returned by the schedule-swap guard. -/
def EBUSY : Int := 16

/-- One window of a built schedule table, `struct evl_tp_window`:
start offset within the frame and the partition it is bound to
(`-1` designates the idle pseudo-partition). -/
structure TpWindow where
  w_offset : Int
  w_part : Int
deriving DecidableEq

/-- Placeholder window used for (never taken) out-of-bounds reads. -/
def dummyWin : TpWindow := { w_offset := 0, w_part := 0 }

/-- A built schedule table, `struct evl_tp_schedule`.  `pwin_nr` is
`pwins.length`; `refcount` is the atomic reference count. -/
structure TpSchedule where
  pwins : List TpWindow
  tf_duration : Int
  refcount : Int
deriving DecidableEq

/-- One entry of the caller-supplied window list for an install request,
`struct __evl_tp_window` (offsets/durations already converted from
`struct __evl_timespec`, which is pure marshalling). -/
structure UserWindow where
  offset : Int
  duration : Int
  ptid : Int
deriving DecidableEq

/-- Placeholder user window for (never taken) out-of-bounds reads. -/
def dummyUser : UserWindow := { offset := 0, duration := 0, ptid := 0 }

/-- One entry of the info buffer filled by `evl_tp_get`
(`struct __evl_tp_window` on the output side). -/
structure OutWindow where
  offset : Int
  duration : Int
  ptid : Int
deriving DecidableEq

/-- The per-CPU TP state, `struct evl_sched_tp` embedded in the run
queue, together with the modelled timer state.  `tps` is the partition
index the active-queue pointer designates (`-1` = idle queue, `none` =
NULL); `threads` is the list of threads attached via `tp_declare`. -/
structure EvlSchedTp where
  gps : Option TpSchedule
  tps : Option Int
  wnext : Nat
  tf_start : Int
  partitions : List (List Nat)
  idleq : List Nat
  threads : List Nat
  timer_running : Bool
  timer_date : Int
deriving DecidableEq

/-- Events recorded by the control-path operations: run-queue lock
acquisition/release, timer stop, table swap, dropping the reference on
the table displaced by a swap, freeing a rejected candidate table, and
delivery of an overrun notification carrying the overrun window index. -/
inductive Ev where
  | lock
  | unlock
  | stop_timer
  | swap
  | put_old
  | free_candidate
  | notify (frame : Int)
deriving DecidableEq

/-- The catch-up loop inside `tp_schedule_next` (tp.c lines 46-53),
entered with the candidate deadline already in the past.  Each pass sets
`t = tf_start + tf_duration; tf_start = t; wnext = 0`, so after the
first pass the deadline and `tf_start` coincide; `s` is that common
value.  The source loop runs forever if `tf_duration <= 0`; every table
built by `tp_control` has a strictly positive `tf_duration` (the sum of
strictly positive window durations), so the guard `D <= 0` that keeps
this function total is never reached from the modelled call sites. -/
def catchupAux (now D s : Int) : Int :=
  if D ≤ 0 then s
  else if now ≤ s then s
  else catchupAux now D (s + D)
termination_by (now - s).toNat
decreasing_by
  simp_wf
  omega

/-- `tp_schedule_next` (tp.c lines 13-57): activate the partition named
by the current window, advance the window index modulo the window count,
compute the next deadline `tf_start + next window offset`, catch up by
whole frames if that deadline is already in the past, and program the
frame timer.  Never called without an installed table (`gps` set); the
`none` branch is unreachable from the modelled call sites. -/
def tp_schedule_next (now : Int) (tp : EvlSchedTp) : EvlSchedTp :=
  match tp.gps with
  | none => tp
  | some g =>
    let w := g.pwins.getD tp.wnext dummyWin
    let p_next := w.w_part
    let wnext1 := (tp.wnext + 1) % g.pwins.length
    let w1 := g.pwins.getD wnext1 dummyWin
    let t := tp.tf_start + w1.w_offset
    if now ≤ t then
      { tp with tps := some p_next, wnext := wnext1,
                timer_running := true, timer_date := t }
    else
      let s := catchupAux now g.tf_duration (tp.tf_start + g.tf_duration)
      { tp with tps := some p_next, wnext := 0, tf_start := s,
                timer_running := true, timer_date := s }

/-- `tp_tick_handler` (tp.c lines 59-96).  `woso` and `blockbits` are
the bit masks `EVL_T_WOSO` and `EVL_THREAD_BLOCK_BITS` (defined in
headers outside the extracted sources), `currState` is the state word of
the thread currently running on the CPU.  Returns the new TP state and
the event trace: lock, window advance under the lock, unlock, then the
overrun notification (if any) delivered after the unlock.  The handler
only ever fires while a table is installed (the swap path stops the
timer first), so the `none` branch is unreachable. -/
def tp_tick_handler (woso blockbits currState : Nat) (now : Int)
    (tp : EvlSchedTp) : EvlSchedTp × List Ev :=
  match tp.gps with
  | none => (tp, [Ev.lock, Ev.unlock])
  | some g =>
    let overrun_frame : Int :=
      if currState &&& (woso ||| blockbits) = woso then
        (if tp.wnext = 0 then (g.pwins.length : Int) - 1
         else (tp.wnext : Int) - 1)
      else -1
    let tp1 :=
      if tp.wnext + 1 = g.pwins.length then
        { tp with tf_start := tp.tf_start + g.tf_duration }
      else tp
    let tp2 := tp_schedule_next now tp1
    (tp2, [Ev.lock, Ev.unlock] ++
          (if 0 ≤ overrun_frame then [Ev.notify overrun_frame] else []))

/-- `start_tp_schedule` (tp.c lines 257-269): no-op without a table;
otherwise reset the window index, set the frame start to the current
clock reading and advance to the first window. -/
def start_tp_schedule (now : Int) (tp : EvlSchedTp) : EvlSchedTp :=
  if tp.gps.isSome then
    tp_schedule_next now { tp with wnext := 0, tf_start := now }
  else tp

/-- `stop_tp_schedule` (tp.c lines 271-279): stop the frame timer if a
table is installed. -/
def stop_tp_schedule (tp : EvlSchedTp) : EvlSchedTp :=
  if tp.gps.isSome then { tp with timer_running := false } else tp

/-- The `EVL_WARN_ON` guard of `set_tp_schedule` (tp.c lines 288-290):
a non-NULL incoming table with no windows or a non-zero first offset is
an internal-API misuse; the current table is returned without swapping. -/
def setWarnCond (gps : Option TpSchedule) : Bool :=
  match gps with
  | none => false
  | some g =>
    decide (g.pwins.length = 0) || decide ((g.pwins.getD 0 dummyWin).w_offset ≠ 0)

/-- `set_tp_schedule` (tp.c lines 281-316): under the run-queue lock,
refuse with `-EBUSY` if any thread is attached, otherwise stop the timer
(when a table is installed), swap the table pointers and return the old
table.  The returned trace records the critical section. -/
def set_tp_schedule (tp : EvlSchedTp) (gps : Option TpSchedule) :
    EvlSchedTp × Except Int (Option TpSchedule) × List Ev :=
  if setWarnCond gps then
    (tp, Except.ok tp.gps, [])
  else if tp.threads ≠ [] then
    (tp, Except.error (-EBUSY), [Ev.lock, Ev.unlock])
  else
    ({ stop_tp_schedule tp with gps := gps },
     Except.ok tp.gps,
     [Ev.lock] ++ (if tp.gps.isSome then [Ev.stop_timer] else []) ++
     [Ev.swap, Ev.unlock])

/-- The validation/build loop of the install path of `tp_control`
(tp.c lines 418-441): walk the user windows keeping the running offset
`next_offset`; reject a window whose offset differs from it, whose
duration is not strictly positive, or whose partition id is below `-1`
or at least `nrPart` (= `CONFIG_EVL_SCHED_TP_NR_PART`).  On success
return the built windows and the final running offset (which becomes
`tf_duration`). -/
def buildWindows (nrPart : Nat) : List UserWindow → Int →
    Option (List TpWindow × Int)
  | [], next => some ([], next)
  | p :: rest, next =>
    if p.offset ≠ next then none
    else if p.duration ≤ 0 then none
    else if p.ptid < -1 ∨ (nrPart : Int) ≤ p.ptid then none
    else
      match buildWindows nrPart rest (next + p.duration) with
      | none => none
      | some (ws, fin) =>
        some ({ w_offset := next, w_part := p.ptid } :: ws, fin)

/-- In-place update of list element `i` (models a store through an
output-buffer pointer); out-of-range indices leave the list unchanged. -/
def updAt {α : Type} : List α → Nat → (α → α) → List α
  | [], _, _ => []
  | a :: l, 0, f => f a :: l
  | a :: l, n+1, f => a :: updAt l n f

/-- The copy-out loop of the `evl_tp_get` branch of `tp_control`
(tp.c lines 397-403).  Iteration `n` stores window `n`'s offset and
partition id into slot `n` and the derived duration
`pwins[n].offset - pwins[n-1].offset` into the previous slot (for
`n = 0` the "previous" pointers `pp`/`pw` still equal `p`/`w`, so slot 0
receives duration 0).  The loop counter `n` runs from 0 while
`n < nr_windows`; here the remaining iteration count `nr_windows - n` is
passed as the structural `fuel` argument, so `fuel = 0` is exactly the
exit test of the source loop. -/
def tpGetLoop (pwins : List TpWindow) : Nat → Nat → List OutWindow →
    List OutWindow
  | 0, _, b => b
  | fuel + 1, n, b =>
    let w := pwins.getD n dummyWin
    let pw := pwins.getD (n - 1) dummyWin
    let b1 := updAt b n (fun s => { s with offset := w.w_offset })
    let b2 := updAt b1 (n - 1) (fun s =>
      { s with duration := w.w_offset - pw.w_offset })
    let b3 := updAt b2 n (fun s => { s with ptid := w.w_part })
    tpGetLoop pwins fuel (n + 1) b3

/-- The whole copy-out step of `evl_tp_get` (tp.c lines 394-406):
`nr_windows = min(requested, pwin_nr)`, the loop above, then the final
store of `tf_duration - pw->w_offset` into the slot `pp` points at —
slot `nr_windows - 1` after a non-empty loop, slot 0 otherwise.
Returns the reported actual window count (`gps->pwin_nr`) and the
buffer. -/
def tpGetFill (g : TpSchedule) (req : Nat) (buf : List OutWindow) :
    Nat × List OutWindow :=
  let m := min req g.pwins.length
  let b := tpGetLoop g.pwins m 0 buf
  let pw := g.pwins.getD (m - 1) dummyWin
  (g.pwins.length,
   updAt b (m - 1) (fun s => { s with duration := g.tf_duration - pw.w_offset }))

/-- Sum of the durations of a user window list. -/
def sumDur (wins : List UserWindow) : Int :=
  (wins.map (fun w => w.duration)).sum

/-- The window-list validity condition exactly as claim C3 states it
(spec-side definition, compared against the source-side `buildWindows`):
each window's offset equals the running sum of the durations of all
prior windows (the `i = 0` instance is the "first offset is 0"
condition), every duration is strictly positive, and every partition id
lies in `[0, nrPart)` or is the idle sentinel `-1`. -/
def specValidWindows (nrPart : Nat) (wins : List UserWindow) : Bool :=
  ((List.range wins.length).all fun i =>
    decide ((wins.getD i dummyUser).offset = sumDur (wins.take i))) &&
  (wins.all fun w => decide (0 < w.duration)) &&
  (wins.all fun w =>
    decide ((0 ≤ w.ptid ∧ w.ptid < (nrPart : Int)) ∨ w.ptid = -1))

/-- Accumulator form of the validation performed by the build loop:
window list still to scan together with the expected next offset. -/
def goodFrom (nrPart : Nat) : List UserWindow → Int → Bool
  | [], _ => true
  | p :: rest, next =>
    decide (p.offset = next) && decide (0 < p.duration) &&
    decide (-1 ≤ p.ptid ∧ p.ptid < (nrPart : Int)) &&
    goodFrom nrPart rest (next + p.duration)

/-- Event `e` occurs inside the critical section that starts the
trace, i.e. strictly before the first `unlock`. -/
@[reducible] def insideCritical (tr : List Ev) (e : Ev) : Prop :=
  e ∈ tr.takeWhile fun x => !(decide (x = Ev.unlock))

/-- Control requests of `tp_control` (`union evl_sched_ctlparam`): the
install window list, or the window count requested by a get together
with the caller's output buffer (`infp` is modelled as always given). -/
inductive TpCtl where
  | install (wins : List UserWindow)
  | uninstall
  | start
  | stop
  | get (req : Nat) (buf : List OutWindow)
deriving DecidableEq

/-- Result of a `tp_control` call: the new per-CPU state, the returned
value (`0` or a positive payload length for success, `-errno` on
failure), the filled info buffer for a get, and the event trace. -/
structure CtlResult where
  tp : EvlSchedTp
  ret : Int
  info : Option (Nat × List OutWindow)
  trace : List Ev
deriving DecidableEq

/-- Modelled from the spec: `evl_tp_infolen` (declared outside the
extracted sources) is the marshalled byte length of a `nr`-window info
block; claims never inspect it, so it is modelled as the count itself. -/
def evl_tp_infolen (nr : Nat) : Int := nr

/-- The shared `switch_schedule` tail of the install/uninstall paths of
`tp_control` (tp.c lines 447-463): swap via `set_tp_schedule`; on
`-EBUSY` free the candidate table and fail; on success drop one
reference to the displaced table (after `set_tp_schedule` has released
the lock). -/
def switchSchedule (tp : EvlSchedTp) (gps : Option TpSchedule) : CtlResult :=
  match set_tp_schedule tp gps with
  | (tp1, Except.error e, tr) =>
    { tp := tp1, ret := e, info := none,
      trace := tr ++ (if gps.isSome then [Ev.free_candidate] else []) }
  | (tp1, Except.ok old, tr) =>
    { tp := tp1, ret := 0, info := none,
      trace := tr ++ (if old.isSome then [Ev.put_old] else []) }

/-- `tp_control` (tp.c lines 339-464) for one CPU's run queue.  The
`cpu_present`/`is_threading_cpu` screening and the `-ENOMEM` path of
`evl_alloc` are out of scope (the model targets one valid CPU and a
successful allocation).  An install with a zero window count falls
through to the uninstall case; a get with no table installed returns 0
without touching the buffer; a get bumps the installed table's refcount
around the copy and drops it again. -/
def tp_control (nrPart : Nat) (now : Int) (tp : EvlSchedTp) (op : TpCtl) :
    CtlResult :=
  match op with
  | TpCtl.install wins =>
    if 0 < wins.length then
      match buildWindows nrPart wins 0 with
      | none =>
        { tp := tp, ret := -EINVAL, info := none, trace := [Ev.free_candidate] }
      | some (ws, fin) =>
        switchSchedule tp (some { pwins := ws, tf_duration := fin, refcount := 1 })
    else
      switchSchedule tp none
  | TpCtl.uninstall => switchSchedule tp none
  | TpCtl.start =>
    { tp := start_tp_schedule now tp, ret := 0, info := none,
      trace := [Ev.lock, Ev.unlock] }
  | TpCtl.stop =>
    { tp := stop_tp_schedule tp, ret := 0, info := none,
      trace := [Ev.lock, Ev.unlock] }
  | TpCtl.get req buf =>
    match tp.gps with
    | none =>
      { tp := tp, ret := 0, info := none, trace := [Ev.lock, Ev.unlock] }
    | some g =>
      let g1 : TpSchedule := { g with refcount := g.refcount + 1 }
      let tp1 := { tp with gps := some g1 }
      let filled := tpGetFill g1 req buf
      let g2 : TpSchedule := { g1 with refcount := g1.refcount - 1 }
      { tp := { tp1 with gps := some g2 },
        ret := evl_tp_infolen (min req g1.pwins.length),
        info := some filled,
        trace := [Ev.lock, Ev.unlock] }

/-- `tp_chkparam` (tp.c lines 173-186): admission test for thread
parameters; `minPrio`/`maxPrio` are `EVL_TP_MIN_PRIO`/`EVL_TP_MAX_PRIO`
and `nrPart` is `CONFIG_EVL_SCHED_TP_NR_PART` (header constants outside
the extracted sources, kept as parameters). -/
def tp_chkparam (minPrio maxPrio : Int) (nrPart : Nat) (tp : EvlSchedTp)
    (prio ptid : Int) : Int :=
  if tp.gps.isNone ∨ prio < minPrio ∨ maxPrio < prio ∨
     ptid < 0 ∨ (nrPart : Int) ≤ ptid then
    -EINVAL
  else 0

/-- A TP thread as far as priority tracking is concerned
(`struct evl_thread`): state word, current (effective) priority, base
priority, and the index of its assigned partition
(`thread->tps - rq->tp.partitions`). -/
structure EvlThread where
  state : Nat
  cprio : Int
  bprio : Int
  tps : Int
deriving DecidableEq

/-- `tp_trackprio` (tp.c lines 133-163): with parameters, install the
supplied priority as the current priority (the `EVL_WARN_ON` about a
differing partition id is diagnostic only and changes no state); without
parameters, reinstate the base priority.  The partition assignment is
untouched. -/
def tp_trackprio (thread : EvlThread) (p : Option (Int × Int)) : EvlThread :=
  match p with
  | some q => { thread with cprio := q.1 }
  | none => { thread with cprio := thread.bprio }

/-- `tp_pick` (tp.c lines 219-226): nothing is picked while the frame
timer is not running; otherwise the head of the queue the active-queue
pointer designates (idle queue for `-1`).  The `none` branch mirrors a
NULL `tps` pointer, which the running timer rules out.  Modelled from
the spec: `evl_get_schedq` yields the head of the FIFO queue (its
dequeue side effect is not needed by any claim). -/
def tp_pick (tp : EvlSchedTp) : Option Nat :=
  if !tp.timer_running then none
  else
    match tp.tps with
    | none => none
    | some p =>
      if p < 0 then tp.idleq.head? else (tp.partitions.getD p.toNat []).head?

/-- `tp_enqueue` (tp.c lines 204-207): append the thread to the queue
its `tps` pointer designates.  Modelled from the spec: queues are FIFO
lists (`evl_add_schedq_tail` appends).  `ptid` is the thread's assigned
partition index; `tp_setparam` only ever assigns real partitions
(`0 ≤ ptid`), so the idle branch is unreachable from the modelled call
sites. -/
def tp_enqueue (tid : Nat) (ptid : Int) (tp : EvlSchedTp) : EvlSchedTp :=
  if ptid < 0 then { tp with idleq := tp.idleq ++ [tid] }
  else
    let parts := updAt tp.partitions ptid.toNat (fun q => q ++ [tid])
    { tp with partitions := parts }

/-- `tp_declare` (tp.c lines 188-196): attach the thread to the per-CPU
list of TP threads. -/
def tp_declare (tid : Nat) (tp : EvlSchedTp) : EvlSchedTp :=
  { tp with threads := tp.threads ++ [tid] }

/-- `tp_forget` (tp.c lines 198-202): detach the thread again. -/
def tp_forget (tid : Nat) (tp : EvlSchedTp) : EvlSchedTp :=
  { tp with threads := tp.threads.erase tid }

/-- `tp_init` (tp.c lines 98-113): the pristine per-CPU TP state — no
table, NULL active-queue pointer, empty partition and idle queues, no
attached threads, timer not running. -/
def tp_init (nrPart : Nat) : EvlSchedTp :=
  { gps := none, tps := none, wnext := 0, tf_start := 0,
    partitions := List.replicate nrPart [], idleq := [], threads := [],
    timer_running := false, timer_date := 0 }

/-- The 3-window scenario schedule of the spec:
`[(0,10ms,P0), (10ms,5ms,Idle), (15ms,10ms,P1)]` (times in ms). -/
def demoWins : List UserWindow :=
  [{ offset := 0, duration := 10, ptid := 0 },
   { offset := 10, duration := 5, ptid := -1 },
   { offset := 15, duration := 10, ptid := 1 }]

/-- Per-CPU state after installing the scenario schedule on a pristine
CPU (4 partitions configured). -/
def demoInstalled : EvlSchedTp :=
  (tp_control 4 0 (tp_init 4) (TpCtl.install demoWins)).tp

/-- Scenario state after `evl_tp_start` at `t = 0`. -/
def demoStarted : EvlSchedTp :=
  (tp_control 4 0 demoInstalled TpCtl.start).tp

/-- One frame-timer expiry, fired exactly at the programmed date, for a
thread whose state word is 0 (masks: `EVL_T_WOSO` = bit 3, blocking
bits = bits 0-2; the overrun path is not exercised). -/
def demoTick (s : EvlSchedTp) : EvlSchedTp :=
  (tp_tick_handler 8 7 0 s.timer_date s).1

/-- Scenario state after `n` punctual frame-timer expiries. -/
def demoState : Nat → EvlSchedTp
  | 0 => demoStarted
  | n + 1 => demoTick (demoState n)

/-- A 2-window schedule used for the catch-up counterexample:
windows at offsets 0 and 10, frame duration 25. -/
def lateSched : TpSchedule :=
  { pwins := [{ w_offset := 0, w_part := 0 }, { w_offset := 10, w_part := 1 }],
    tf_duration := 25, refcount := 1 }

/-- A CPU that installed `lateSched`, last synchronized its frame at
time 0 and is about to advance past window 0 — but the timer fires very
late, at time 25. -/
def lateTp : EvlSchedTp :=
  { tp_init 4 with gps := some lateSched, wnext := 0, tf_start := 0 }

/-- A 1-window schedule install used for the get-with-zero-request
counterexample. -/
def oneWin : List UserWindow := [{ offset := 0, duration := 5, ptid := 0 }]

/-- Per-CPU state with `oneWin` installed. -/
def oneInstalled : EvlSchedTp :=
  (tp_control 4 0 (tp_init 4) (TpCtl.install oneWin)).tp

/-- A stopped state with runnable threads enqueued in partitions 0 and 1
and the active-queue pointer on partition 0. -/
def pickDemoStopped : EvlSchedTp :=
  { tp_init 2 with gps := some lateSched, partitions := [[7], [8]],
                   tps := some 0, timer_running := false }

/-- The same state with the frame timer running. -/
def pickDemoRunning : EvlSchedTp :=
  { pickDemoStopped with timer_running := true }

/-- The same running state during an idle window. -/
def pickDemoIdle : EvlSchedTp :=
  { pickDemoRunning with tps := some (-1) }

/-- C1: with a schedule installed, `start_tp_schedule` sets the frame
start to the current clock reading and restarts from window index 0,
activating window 0's partition; each punctual frame-timer expiry
activates the partition named by the current window (`-1` designating
the idle queue), advances the window index by one modulo the window
count, advances the frame start by one frame duration exactly when the
window being processed is the last one, and programs the timer for the
frame start plus the next window's offset; on the 3-window scenario
schedule started at time 0 the active partitions repeat P0, Idle, P1
with timer deadlines 10, 15, 25, 35, 40, 50. -/
theorem C1_window_cycling (woso blockbits currState : Nat) (now : Int)
    (tp : EvlSchedTp) (g : TpSchedule) (hg : tp.gps = some g) :
    (0 ≤ (g.pwins.getD (1 % g.pwins.length) dummyWin).w_offset →
      start_tp_schedule now tp =
        { tp with
          tps := some ((g.pwins.getD 0 dummyWin).w_part),
          wnext := 1 % g.pwins.length,
          tf_start := now,
          timer_running := true,
          timer_date := now +
            (g.pwins.getD (1 % g.pwins.length) dummyWin).w_offset }) ∧
    (∀ tf1 : Int,
      tf1 = (if tp.wnext + 1 = g.pwins.length
             then tp.tf_start + g.tf_duration else tp.tf_start) →
      now ≤ tf1 +
        (g.pwins.getD ((tp.wnext + 1) % g.pwins.length) dummyWin).w_offset →
      (tp_tick_handler woso blockbits currState now tp).1 =
        { tp with
          tps := some ((g.pwins.getD tp.wnext dummyWin).w_part),
          wnext := (tp.wnext + 1) % g.pwins.length,
          tf_start := tf1,
          timer_running := true,
          timer_date := tf1 +
            (g.pwins.getD ((tp.wnext + 1) % g.pwins.length) dummyWin).w_offset }) ∧
    (List.range 6).map (fun n => ((demoState n).tps, (demoState n).timer_date)) =
      [(some 0, 10), (some (-1), 15), (some 1, 25),
       (some 0, 35), (some (-1), 40), (some 1, 50)] := by
  refine ⟨?_, ?_, by decide⟩
  · intro hoff
    have hnow : now ≤ now + (g.pwins.getD (1 % g.pwins.length) dummyWin).w_offset := by
      omega
    simp only [start_tp_schedule, hg, Option.isSome_some, if_true]
    simp only [tp_schedule_next, hg]
    rw [if_pos hnow]
  · intro tf1 htf hnow
    simp only [tp_tick_handler, hg]
    by_cases hlast : tp.wnext + 1 = g.pwins.length
    · rw [if_pos hlast]
      have hg1 : ({ tp with tf_start := tp.tf_start + g.tf_duration } : EvlSchedTp).gps
          = some g := hg
      simp only [tp_schedule_next, hg1]
      rw [if_pos (by rw [htf, if_pos hlast] at hnow; exact hnow)]
      rw [htf, if_pos hlast]
    · rw [if_neg hlast]
      simp only [tp_schedule_next, hg]
      rw [if_pos (by rw [htf, if_neg hlast] at hnow; exact hnow)]
      rw [htf, if_neg hlast]

/-- C1 witness: starting the scenario schedule at time 0 and one
punctual expiry at time 15 from the started state. -/
theorem C1_window_cycling_witness :
    start_tp_schedule 0 demoInstalled =
      { demoInstalled with tps := some 0, wnext := 1, tf_start := 0,
                           timer_running := true, timer_date := 10 } ∧
    (tp_tick_handler 8 7 0 15 demoStarted).1 =
      { demoStarted with tps := some (-1), wnext := 2, tf_start := 0,
                         timer_running := true, timer_date := 15 } := by
  have h := C1_window_cycling 8 7 0 0 demoInstalled
    { pwins := [{ w_offset := 0, w_part := 0 }, { w_offset := 10, w_part := -1 },
                { w_offset := 15, w_part := 1 }],
      tf_duration := 25, refcount := 1 } (by decide)
  have h2 := C1_window_cycling 8 7 0 15 demoStarted
    { pwins := [{ w_offset := 0, w_part := 0 }, { w_offset := 10, w_part := -1 },
                { w_offset := 15, w_part := 1 }],
      tf_duration := 25, refcount := 1 } (by decide)
  constructor
  · rw [h.1 (by decide)]
    decide
  · rw [h2.2.1 0 (by decide) (by decide)]
    decide

/-- The catch-up loop terminates for every strictly positive frame
duration, ending at the first value of the form `s + k * D` that `now`
does not exceed; that exit value is never below `now`. -/
theorem catchupAux_spec (now D : Int) (hD : 0 < D) :
    ∀ s : Int, ∃ k : Nat,
      catchupAux now D s = s + k * D ∧ now ≤ s + k * D := by
  suffices h : ∀ (m : Nat) (s : Int), (now - s).toNat ≤ m →
      ∃ k : Nat, catchupAux now D s = s + k * D ∧ now ≤ s + k * D by
    intro s
    exact h (now - s).toNat s le_rfl
  intro m
  induction m with
  | zero =>
    intro s hs
    have h : now ≤ s := by omega
    refine ⟨0, ?_, by simpa using h⟩
    rw [catchupAux, if_neg (by omega), if_pos h]
    simp
  | succ m ih =>
    intro s hs
    by_cases h : now ≤ s
    · refine ⟨0, ?_, by simpa using h⟩
      rw [catchupAux, if_neg (by omega), if_pos h]
      simp
    · obtain ⟨k, hk1, hk2⟩ := ih (s + D) (by omega)
      refine ⟨k + 1, ?_, ?_⟩
      · rw [catchupAux, if_neg (by omega), if_neg h, hk1]
        push_cast
        ring
      · push_cast at hk2 ⊢
        linarith

/-- C2 counterexample: on `lateTp` with the timer firing at time 25 the
entry conditions of the claim hold (the computed deadline 10 is in the
past, the frame duration 25 is strictly positive), yet the deadline
finally programmed is 25 — equal to the observed current time, not
strictly later than it. -/
theorem C2_counterexample :
    lateTp.tf_start +
      (lateSched.pwins.getD ((lateTp.wnext + 1) % lateSched.pwins.length)
        dummyWin).w_offset < 25 ∧
    0 < lateSched.tf_duration ∧
    (tp_schedule_next 25 lateTp).wnext = 0 ∧
    (tp_schedule_next 25 lateTp).timer_date = 25 ∧
    ¬ 25 < (tp_schedule_next 25 lateTp).timer_date := by
  have h0 : (tp_schedule_next 25 lateTp).timer_date = catchupAux 25 25 (0 + 25) :=
    rfl
  have h1 : catchupAux 25 25 (0 + 25) = 25 := by
    rw [catchupAux]
    norm_num
  refine ⟨by decide, by decide, rfl, ?_, ?_⟩
  · rw [h0, h1]
  · rw [h0, h1]
    decide

/-- C2 (amended): when the computed deadline is already in the past,
the catch-up loop of `tp_schedule_next` terminates (the frame duration
being strictly positive), advances `tf_start` by a whole positive
number of frame durations, resets the next window index to 0, and
programs the timer at the new frame start, a date that is never
earlier than the observed current time — though it may equal it
rather than lie strictly in the future. -/
theorem C2_catchup_resync (now : Int) (tp : EvlSchedTp) (g : TpSchedule)
    (hg : tp.gps = some g) (hD : 0 < g.tf_duration)
    (hlate : tp.tf_start +
      (g.pwins.getD ((tp.wnext + 1) % g.pwins.length) dummyWin).w_offset
        < now) :
    ∃ k : Nat, 1 ≤ k ∧
      (tp_schedule_next now tp).tf_start = tp.tf_start + k * g.tf_duration ∧
      (tp_schedule_next now tp).wnext = 0 ∧
      (tp_schedule_next now tp).timer_date = (tp_schedule_next now tp).tf_start ∧
      now ≤ (tp_schedule_next now tp).timer_date := by
  have hnot : ¬ now ≤ tp.tf_start +
      (g.pwins.getD ((tp.wnext + 1) % g.pwins.length) dummyWin).w_offset :=
    not_le.mpr hlate
  have hsn : tp_schedule_next now tp =
      { tp with
        tps := some ((g.pwins.getD tp.wnext dummyWin).w_part),
        wnext := 0,
        tf_start := catchupAux now g.tf_duration (tp.tf_start + g.tf_duration),
        timer_running := true,
        timer_date := catchupAux now g.tf_duration (tp.tf_start + g.tf_duration) } := by
    simp only [tp_schedule_next, hg]
    rw [if_neg hnot]
  obtain ⟨k, hk1, hk2⟩ :=
    catchupAux_spec now g.tf_duration hD (tp.tf_start + g.tf_duration)
  refine ⟨k + 1, by omega, ?_, ?_, ?_, ?_⟩
  · rw [hsn]
    simp only [hk1]
    push_cast
    ring
  · rw [hsn]
  · rw [hsn]
  · rw [hsn]
    simp only [hk1]
    linarith

/-- C2 witness: firing at time 26 on `lateTp` exercises the amended
claim with two whole catch-up frames. -/
theorem C2_catchup_resync_witness :
    ∃ k : Nat, 1 ≤ k ∧
      (tp_schedule_next 26 lateTp).tf_start =
        lateTp.tf_start + k * lateSched.tf_duration ∧
      (tp_schedule_next 26 lateTp).wnext = 0 ∧
      (tp_schedule_next 26 lateTp).timer_date =
        (tp_schedule_next 26 lateTp).tf_start ∧
      26 ≤ (tp_schedule_next 26 lateTp).timer_date :=
  C2_catchup_resync 26 lateTp lateSched rfl (by decide) (by decide)

/-- Unfolding lemma: summing durations over a cons. -/
theorem sumDur_cons (p : UserWindow) (l : List UserWindow) :
    sumDur (p :: l) = p.duration + sumDur l := by
  simp [sumDur]

/-- The accumulator validation holds exactly when every window's offset
is the accumulator plus the running sum of prior durations, durations
are positive and partition ids are in `[-1, nrPart)`. -/
theorem goodFrom_iff (nrPart : Nat) : ∀ (wins : List UserWindow) (next : Int),
    goodFrom nrPart wins next = true ↔
      ((∀ i, i < wins.length →
        (wins.getD i dummyUser).offset = next + sumDur (wins.take i)) ∧
       (∀ w ∈ wins, 0 < w.duration) ∧
       (∀ w ∈ wins, -1 ≤ w.ptid ∧ w.ptid < (nrPart : Int))) := by
  intro wins
  induction wins with
  | nil =>
    intro next
    simp [goodFrom]
  | cons p rest ih =>
    intro next
    simp only [goodFrom, Bool.and_eq_true, decide_eq_true_eq, ih]
    constructor
    · rintro ⟨⟨⟨h1, h2⟩, h3⟩, hrec1, hrec2, hrec3⟩
      refine ⟨?_, ?_, ?_⟩
      · intro i hi
        cases i with
        | zero =>
          simpa [sumDur] using h1
        | succ j =>
          have hj := hrec1 j (by simpa using hi)
          simpa [sumDur_cons, add_assoc] using hj
      · intro w hw
        rcases List.mem_cons.mp hw with h | h
        · rw [h]; exact h2
        · exact hrec2 w h
      · intro w hw
        rcases List.mem_cons.mp hw with h | h
        · rw [h]; exact h3
        · exact hrec3 w h
    · rintro ⟨h1, h2, h3⟩
      refine ⟨⟨⟨?_, ?_⟩, ?_⟩, ?_, ?_, ?_⟩
      · simpa [sumDur] using h1 0 (by simp)
      · exact h2 p (by simp)
      · exact h3 p (by simp)
      · intro i hi
        have hj := h1 (i + 1) (by simpa using hi)
        simpa [sumDur_cons, add_assoc] using hj
      · intro w hw
        exact h2 w (List.mem_cons_of_mem p hw)
      · intro w hw
        exact h3 w (List.mem_cons_of_mem p hw)

/-- The source build loop succeeds exactly when the accumulator
validation holds. -/
theorem buildWindows_isSome (nrPart : Nat) :
    ∀ (wins : List UserWindow) (next : Int),
      (buildWindows nrPart wins next).isSome = goodFrom nrPart wins next := by
  intro wins
  induction wins with
  | nil =>
    intro next
    simp [buildWindows, goodFrom]
  | cons p rest ih =>
    intro next
    by_cases h1 : p.offset = next
    case neg =>
      simp [buildWindows, goodFrom, h1]
    case pos =>
      by_cases h2 : p.duration ≤ 0
      · simp [buildWindows, goodFrom, h1, h2, not_lt.mpr h2]
      · by_cases h3 : p.ptid < -1 ∨ (nrPart : Int) ≤ p.ptid
        · have h3' : ¬ (-1 ≤ p.ptid ∧ p.ptid < (nrPart : Int)) := by omega
          simp [buildWindows, goodFrom, h1, h2, h3, h3']
        · have h3' : -1 ≤ p.ptid ∧ p.ptid < (nrPart : Int) := by omega
          simp only [buildWindows, if_neg (by simp [h1] : ¬ p.offset ≠ next),
            if_neg h2, if_neg h3, goodFrom, decide_eq_true_eq]
          cases hb : buildWindows nrPart rest (next + p.duration) with
          | none =>
            have := ih (next + p.duration)
            rw [hb] at this
            simp [← this, h1, not_le.mp h2, h3']
          | some pr =>
            have := ih (next + p.duration)
            rw [hb] at this
            simp [← this, h1, not_le.mp h2, h3']

/-- On success the final running offset — the built table's
`tf_duration` — is the accumulator plus the sum of all durations. -/
theorem buildWindows_fin (nrPart : Nat) :
    ∀ (wins : List UserWindow) (next : Int) (ws : List TpWindow) (fin : Int),
      buildWindows nrPart wins next = some (ws, fin) →
      fin = next + sumDur wins := by
  intro wins
  induction wins with
  | nil =>
    intro next ws fin h
    simp only [buildWindows, Option.some_inj, Prod.mk.injEq] at h
    simp [sumDur, ← h.2]
  | cons p rest ih =>
    intro next ws fin h
    simp only [buildWindows] at h
    split_ifs at h
    cases hb : buildWindows nrPart rest (next + p.duration) with
    | none =>
      rw [hb] at h
      simp at h
    | some pr =>
      rw [hb] at h
      obtain ⟨ws', fin'⟩ := pr
      simp only [Option.some_inj] at h
      have hrec := ih (next + p.duration) ws' fin' hb
      have hfin : fin = fin' := by
        have := congrArg Prod.snd h
        simpa using this.symm
      rw [hfin, hrec, sumDur_cons]
      ring

/-- The claim-side validity condition coincides with the source-side
build-loop validation started at running offset 0. -/
theorem specValid_eq_goodFrom (nrPart : Nat) (wins : List UserWindow) :
    specValidWindows nrPart wins = goodFrom nrPart wins 0 := by
  rw [Bool.eq_iff_iff]
  rw [goodFrom_iff]
  simp only [specValidWindows, Bool.and_eq_true, List.all_eq_true,
    decide_eq_true_eq, List.mem_range]
  constructor
  · rintro ⟨⟨hoff, hdur⟩, hpt⟩
    refine ⟨fun i hi => by simpa using hoff i hi, hdur, fun w hw => ?_⟩
    have := hpt w hw
    omega
  · rintro ⟨hoff, hdur, hpt⟩
    refine ⟨⟨fun i hi => by simpa using hoff i hi, hdur⟩, fun w hw => ?_⟩
    have := hpt w hw
    omega

/-- The swap tail of the install/uninstall paths returns either success
or the Busy error, never anything else. -/
theorem switchSchedule_ret (tp : EvlSchedTp) (gps : Option TpSchedule) :
    (switchSchedule tp gps).ret = 0 ∨ (switchSchedule tp gps).ret = -EBUSY := by
  rw [switchSchedule, set_tp_schedule]
  split_ifs <;> simp

/-- C3: an install request is rejected with `-EINVAL` — with the per-CPU
state unmodified and the candidate table freed — exactly when the window
list violates the claim's validity condition (offsets are the running
sums of prior durations starting at 0, durations strictly positive,
partition ids in range or the idle sentinel); on a valid list the built
table's `tf_duration` is the sum of all durations. -/
theorem C3_install_validation (nrPart : Nat) (now : Int) (tp : EvlSchedTp)
    (wins : List UserWindow) (hne : wins ≠ []) :
    ((tp_control nrPart now tp (TpCtl.install wins)).ret = -EINVAL ↔
      specValidWindows nrPart wins = false) ∧
    (specValidWindows nrPart wins = false →
      (tp_control nrPart now tp (TpCtl.install wins)).tp = tp ∧
      (tp_control nrPart now tp (TpCtl.install wins)).trace =
        [Ev.free_candidate]) ∧
    (∀ (ws : List TpWindow) (fin : Int),
      buildWindows nrPart wins 0 = some (ws, fin) → fin = sumDur wins) := by
  have hlen : 0 < wins.length := List.length_pos.mpr hne
  have hkey : (tp_control nrPart now tp (TpCtl.install wins)) =
      (match buildWindows nrPart wins 0 with
       | none => { tp := tp, ret := -EINVAL, info := none,
                   trace := [Ev.free_candidate] }
       | some (ws, fin) =>
         switchSchedule tp
           (some { pwins := ws, tf_duration := fin, refcount := 1 })) := by
    simp only [tp_control]
    rw [if_pos hlen]
  refine ⟨?_, ?_, ?_⟩
  · rw [hkey]
    cases hb : buildWindows nrPart wins 0 with
    | none =>
      have hs := buildWindows_isSome nrPart wins 0
      rw [hb] at hs
      rw [specValid_eq_goodFrom, ← hs]
      simp
    | some pr =>
      obtain ⟨ws, fin⟩ := pr
      have hs := buildWindows_isSome nrPart wins 0
      rw [hb] at hs
      rw [specValid_eq_goodFrom, ← hs]
      simp only [Option.isSome_some]
      constructor
      · intro hret
        rcases switchSchedule_ret tp
            (some { pwins := ws, tf_duration := fin, refcount := 1 }) with h | h
        · rw [hret] at h
          exact absurd h (by decide)
        · rw [hret] at h
          exact absurd h (by decide)
      · intro h
        exact absurd h (by decide)
  · intro hval
    have hs := buildWindows_isSome nrPart wins 0
    rw [specValid_eq_goodFrom] at hval
    rw [hval] at hs
    cases hb : buildWindows nrPart wins 0 with
    | none =>
      rw [hkey, hb]
      exact ⟨rfl, rfl⟩
    | some pr =>
      rw [hb] at hs
      simp at hs
  · intro ws fin hb
    have := buildWindows_fin nrPart wins 0 ws fin hb
    omega

/-- C3 witness: a list whose first offset is 5 (not the running sum 0)
is rejected with `-EINVAL` and leaves the state untouched; the valid
scenario list builds a table whose frame duration 25 is the sum of its
durations. -/
theorem C3_install_validation_witness :
    (tp_control 4 0 (tp_init 4)
      (TpCtl.install [{ offset := 5, duration := 3, ptid := 0 }])).ret =
        -EINVAL ∧
    (tp_control 4 0 (tp_init 4)
      (TpCtl.install [{ offset := 5, duration := 3, ptid := 0 }])).tp =
        tp_init 4 ∧
    (25 : Int) = sumDur demoWins := by
  have h := C3_install_validation 4 0 (tp_init 4)
    [{ offset := 5, duration := 3, ptid := 0 }] (by decide)
  have h2 := C3_install_validation 4 0 (tp_init 4) demoWins (by decide)
  refine ⟨h.1.mpr (by decide), (h.2.1 (by decide)).1, ?_⟩
  exact h2.2.2
    [{ w_offset := 0, w_part := 0 }, { w_offset := 10, w_part := -1 },
     { w_offset := 15, w_part := 1 }] 25 (by decide)

/-- The first window built from a non-empty list carries the running
offset (the accumulator) and the head's partition id. -/
theorem buildWindows_head (nrPart : Nat) (p : UserWindow)
    (rest : List UserWindow) (next : Int) (ws : List TpWindow) (fin : Int)
    (h : buildWindows nrPart (p :: rest) next = some (ws, fin)) :
    ∃ ws', ws = { w_offset := next, w_part := p.ptid } :: ws' := by
  simp only [buildWindows] at h
  split_ifs at h
  cases hb : buildWindows nrPart rest (next + p.duration) with
  | none =>
    rw [hb] at h
    simp at h
  | some pr =>
    rw [hb] at h
    obtain ⟨ws', fin'⟩ := pr
    simp only [Option.some_inj, Prod.mk.injEq] at h
    exact ⟨ws', h.1.symm⟩

/-- C4 counterexample: uninstalling the scenario table from a CPU with
no attached thread succeeds, but the reference on the displaced table is
dropped strictly after the critical section — the `put_old` event
follows `unlock` in the trace — refuting the claim that the drop happens
in the same critical section as the swap. -/
theorem C4_counterexample :
    demoInstalled.threads = [] ∧
    demoInstalled.gps.isSome = true ∧
    (tp_control 4 0 demoInstalled TpCtl.uninstall).ret = 0 ∧
    (tp_control 4 0 demoInstalled TpCtl.uninstall).trace =
      [Ev.lock, Ev.stop_timer, Ev.swap, Ev.unlock, Ev.put_old] ∧
    insideCritical (tp_control 4 0 demoInstalled TpCtl.uninstall).trace
      Ev.swap ∧
    ¬ insideCritical (tp_control 4 0 demoInstalled TpCtl.uninstall).trace
      Ev.put_old := by
  refine ⟨rfl, rfl, rfl, rfl, by decide, by decide⟩

/-- C4 (amended): `Install` (of a valid, non-empty window list) and
`Uninstall` fail with `-EBUSY` exactly when at least one thread is
attached to the CPU's TP policy (attachment being `tp_declare` not yet
undone by `tp_forget`); a Busy failure leaves the whole per-CPU state
untouched; with no thread attached both requests succeed — uninstall
clears the table, install swaps in the freshly built one — stopping any
running timer inside the critical section, and in both cases the
reference on the previous table is dropped immediately after the
critical section: after the run-queue lock is released, not inside
it. -/
theorem C4_busy_guard (nrPart : Nat) (now : Int) (tp : EvlSchedTp)
    (wins : List UserWindow) (hval : specValidWindows nrPart wins = true)
    (hne : wins ≠ []) :
    ((tp_control nrPart now tp TpCtl.uninstall).ret = -EBUSY ↔
      tp.threads ≠ []) ∧
    ((tp_control nrPart now tp (TpCtl.install wins)).ret = -EBUSY ↔
      tp.threads ≠ []) ∧
    (tp.threads ≠ [] →
      (tp_control nrPart now tp TpCtl.uninstall).tp = tp ∧
      (tp_control nrPart now tp (TpCtl.install wins)).tp = tp) ∧
    (tp.threads = [] →
      ((tp_control nrPart now tp TpCtl.uninstall).ret = 0 ∧
       (tp_control nrPart now tp TpCtl.uninstall).tp =
         { stop_tp_schedule tp with gps := none } ∧
       (tp_control nrPart now tp TpCtl.uninstall).trace =
         [Ev.lock] ++ (if tp.gps.isSome then [Ev.stop_timer] else []) ++
         [Ev.swap, Ev.unlock] ++
         (if tp.gps.isSome then [Ev.put_old] else []) ∧
       (tp.gps.isSome →
         Ev.put_old ∈ (tp_control nrPart now tp TpCtl.uninstall).trace) ∧
       ¬ insideCritical (tp_control nrPart now tp TpCtl.uninstall).trace
           Ev.put_old) ∧
      ((tp_control nrPart now tp (TpCtl.install wins)).ret = 0 ∧
       (∀ (ws : List TpWindow) (fin : Int),
         buildWindows nrPart wins 0 = some (ws, fin) →
         (tp_control nrPart now tp (TpCtl.install wins)).tp =
           { stop_tp_schedule tp with
             gps := some { pwins := ws, tf_duration := fin, refcount := 1 } }) ∧
       (tp_control nrPart now tp (TpCtl.install wins)).trace =
         [Ev.lock] ++ (if tp.gps.isSome then [Ev.stop_timer] else []) ++
         [Ev.swap, Ev.unlock] ++
         (if tp.gps.isSome then [Ev.put_old] else []) ∧
       (tp.gps.isSome →
         Ev.put_old ∈ (tp_control nrPart now tp (TpCtl.install wins)).trace) ∧
       ¬ insideCritical (tp_control nrPart now tp (TpCtl.install wins)).trace
           Ev.put_old)) ∧
    (∀ tid : Nat, (tp_declare tid tp).threads ≠ []) ∧
    (∀ tid : Nat, tid ∉ tp.threads → tp_forget tid (tp_declare tid tp) = tp) := by
  obtain ⟨pr, hb⟩ : ∃ pr, buildWindows nrPart wins 0 = some pr := by
    have hs := buildWindows_isSome nrPart wins 0
    rw [← specValid_eq_goodFrom, hval] at hs
    exact Option.isSome_iff_exists.mp hs
  obtain ⟨ws, fin⟩ := pr
  obtain ⟨p, rest, hpr⟩ : ∃ p rest, wins = p :: rest := by
    cases wins with
    | nil => exact absurd rfl hne
    | cons p rest => exact ⟨p, rest, rfl⟩
  subst hpr
  obtain ⟨ws', hws⟩ := buildWindows_head nrPart p rest 0 ws fin hb
  have hwarn : setWarnCond
      (some { pwins := ws, tf_duration := fin, refcount := 1 }) = false := by
    rw [hws]
    simp [setWarnCond, dummyWin]
  have hinst : tp_control nrPart now tp (TpCtl.install (p :: rest)) =
      switchSchedule tp (some { pwins := ws, tf_duration := fin, refcount := 1 }) := by
    simp only [tp_control]
    rw [if_pos (by simp), hb]
  have hwarn0 : setWarnCond (none : Option TpSchedule) = false := rfl
  by_cases hth : tp.threads = []
  · have huni : tp_control nrPart now tp TpCtl.uninstall =
        { tp := { stop_tp_schedule tp with gps := none }, ret := 0, info := none,
          trace := ([Ev.lock] ++ (if tp.gps.isSome then [Ev.stop_timer] else []) ++
            [Ev.swap, Ev.unlock]) ++
            (if tp.gps.isSome then [Ev.put_old] else []) } := by
      simp only [tp_control, switchSchedule, set_tp_schedule, hwarn0,
        Bool.false_eq_true, if_false, hth, ne_eq, not_true_eq_false,
        if_neg (by simp : ¬ (([] : List Nat) ≠ []))]
    have hinstS : tp_control nrPart now tp (TpCtl.install (p :: rest)) =
        { tp := { stop_tp_schedule tp with
            gps := some { pwins := ws, tf_duration := fin, refcount := 1 } },
          ret := 0, info := none,
          trace := ([Ev.lock] ++ (if tp.gps.isSome then [Ev.stop_timer] else []) ++
            [Ev.swap, Ev.unlock]) ++
            (if tp.gps.isSome then [Ev.put_old] else []) } := by
      rw [hinst]
      simp only [switchSchedule, set_tp_schedule, hwarn,
        Bool.false_eq_true, if_false, hth, ne_eq, not_true_eq_false,
        if_neg (by simp : ¬ (([] : List Nat) ≠ []))]
    refine ⟨?_, ?_, ?_, ?_, ?_, ?_⟩
    · rw [huni]
      simp [hth, EBUSY]
    · rw [hinstS]
      simp [hth, EBUSY]
    · intro h
      exact absurd hth h
    · intro _
      constructor
      · refine ⟨by rw [huni], by rw [huni], by rw [huni], ?_, ?_⟩
        · intro hsome
          rw [huni]
          simp [hsome]
        · rw [huni]
          cases h : tp.gps.isSome <;>
            simp [h, insideCritical, List.takeWhile]
      · refine ⟨by rw [hinstS], ?_, by rw [hinstS], ?_, ?_⟩
        · intro ws2 fin2 hb2
          rw [hb] at hb2
          simp only [Option.some_inj, Prod.mk.injEq] at hb2
          obtain ⟨hws2, hfin2⟩ := hb2
          subst hws2
          subst hfin2
          rw [hinstS]
        · intro hsome
          rw [hinstS]
          simp [hsome]
        · rw [hinstS]
          cases h : tp.gps.isSome <;>
            simp [h, insideCritical, List.takeWhile]
    · intro tid
      simp [tp_declare]
    · intro tid htid
      simp [tp_forget, tp_declare, List.erase_append_right _ htid]
  · have hbusy : ∀ gps, setWarnCond gps = false →
        switchSchedule tp gps =
          { tp := tp, ret := -EBUSY, info := none,
            trace := [Ev.lock, Ev.unlock] ++
              (if gps.isSome then [Ev.free_candidate] else []) } := by
      intro gps hw
      simp only [switchSchedule, set_tp_schedule, hw, Bool.false_eq_true,
        if_false, if_pos hth]
    refine ⟨?_, ?_, ?_, ?_, ?_, ?_⟩
    · rw [show tp_control nrPart now tp TpCtl.uninstall = switchSchedule tp none
          from rfl, hbusy none hwarn0]
      simp [hth]
    · rw [hinst, hbusy _ hwarn]
      simp [hth]
    · intro _
      constructor
      · rw [show tp_control nrPart now tp TpCtl.uninstall = switchSchedule tp none
            from rfl, hbusy none hwarn0]
      · rw [hinst, hbusy _ hwarn]
    · intro h
      exact absurd h hth
    · intro tid
      simp [tp_declare]
    · intro tid htid
      simp [tp_forget, tp_declare, List.erase_append_right _ htid]

/-- C4 witness: with a thread attached both requests are refused with
Busy and nothing changes; after detaching, both uninstall and install
succeed and in both cases the old-table reference drop sits outside the
critical section. -/
theorem C4_busy_guard_witness :
    (tp_control 4 0 (tp_declare 3 demoInstalled) TpCtl.uninstall).ret =
      -EBUSY ∧
    (tp_control 4 0 (tp_declare 3 demoInstalled)
      (TpCtl.install demoWins)).tp = tp_declare 3 demoInstalled ∧
    (tp_control 4 0 (tp_forget 3 (tp_declare 3 demoInstalled))
      TpCtl.uninstall).ret = 0 ∧
    ¬ insideCritical
        (tp_control 4 0 (tp_forget 3 (tp_declare 3 demoInstalled))
          TpCtl.uninstall).trace Ev.put_old ∧
    (tp_control 4 0 (tp_forget 3 (tp_declare 3 demoInstalled))
      (TpCtl.install demoWins)).ret = 0 ∧
    ¬ insideCritical
        (tp_control 4 0 (tp_forget 3 (tp_declare 3 demoInstalled))
          (TpCtl.install demoWins)).trace Ev.put_old := by
  have h1 := C4_busy_guard 4 0 (tp_declare 3 demoInstalled) demoWins
    (by decide) (by decide)
  have h2 := C4_busy_guard 4 0 (tp_forget 3 (tp_declare 3 demoInstalled))
    demoWins (by decide) (by decide)
  refine ⟨h1.1.mpr (by decide), (h1.2.2.1 (by decide)).2, ?_, ?_, ?_, ?_⟩
  · exact ((h2.2.2.2.1 (by decide)).1).1
  · exact ((h2.2.2.2.1 (by decide)).1).2.2.2.2
  · exact ((h2.2.2.2.1 (by decide)).2).1
  · exact ((h2.2.2.2.1 (by decide)).2).2.2.2.2

/-- Bit-mask arithmetic used by the overrun test: when the two masks are
disjoint, `(s AND (w OR b)) = w` says exactly that all bits of `w` are
set in `s` and no bit of `b` is. -/
theorem and_or_mask_iff (s w b : Nat) (hd : w &&& b = 0) :
    s &&& (w ||| b) = w ↔ (s &&& w = w ∧ s &&& b = 0) := by
  constructor
  · intro h
    constructor
    · apply Nat.eq_of_testBit_eq
      intro i
      have hh := congrArg (fun x => x.testBit i) h
      have hdd := congrArg (fun x => x.testBit i) hd
      simp only [Nat.testBit_and, Nat.testBit_or, Nat.zero_testBit] at hh hdd ⊢
      cases hs : s.testBit i <;> cases hw : w.testBit i <;>
        cases hbi : b.testBit i <;> simp_all
    · apply Nat.eq_of_testBit_eq
      intro i
      have hh := congrArg (fun x => x.testBit i) h
      have hdd := congrArg (fun x => x.testBit i) hd
      simp only [Nat.testBit_and, Nat.testBit_or, Nat.zero_testBit] at hh hdd ⊢
      cases hs : s.testBit i <;> cases hw : w.testBit i <;>
        cases hbi : b.testBit i <;> simp_all
  · rintro ⟨h1, h2⟩
    apply Nat.eq_of_testBit_eq
    intro i
    have hh1 := congrArg (fun x => x.testBit i) h1
    have hh2 := congrArg (fun x => x.testBit i) h2
    have hdd := congrArg (fun x => x.testBit i) hd
    simp only [Nat.testBit_and, Nat.testBit_or, Nat.zero_testBit] at hh1 hh2 hdd ⊢
    cases hs : s.testBit i <;> cases hw : w.testBit i <;>
      cases hbi : b.testBit i <;> simp_all

/-- C5: on a frame-timer expiry the handler emits an overrun
notification exactly when the current thread's state word has all
`EVL_T_WOSO` bits set and no blocking-state bit set (the masks being
disjoint); the notification carries `wnext - 1`, wrapping to the last
window index when `wnext` is 0; and in the event trace every
notification lies outside the critical section, strictly after the
unlock. -/
theorem C5_overrun_notification (woso blockbits currState : Nat) (now : Int)
    (tp : EvlSchedTp) (g : TpSchedule) (hg : tp.gps = some g)
    (hN : 0 < g.pwins.length) (hdisj : woso &&& blockbits = 0) :
    ((tp_tick_handler woso blockbits currState now tp).2 =
      [Ev.lock, Ev.unlock] ++
      (if currState &&& woso = woso ∧ currState &&& blockbits = 0 then
        [Ev.notify (if tp.wnext = 0 then (g.pwins.length : Int) - 1
                    else (tp.wnext : Int) - 1)]
       else [])) ∧
    (∀ f : Int,
      ¬ insideCritical (tp_tick_handler woso blockbits currState now tp).2
          (Ev.notify f)) := by
  have hmask := and_or_mask_iff currState woso blockbits hdisj
  have htr : (tp_tick_handler woso blockbits currState now tp).2 =
      [Ev.lock, Ev.unlock] ++
      (if currState &&& woso = woso ∧ currState &&& blockbits = 0 then
        [Ev.notify (if tp.wnext = 0 then (g.pwins.length : Int) - 1
                    else (tp.wnext : Int) - 1)]
       else []) := by
    simp only [tp_tick_handler, hg]
    by_cases hc : currState &&& (woso ||| blockbits) = woso
    · rw [if_pos hc]
      have hge : (0 : Int) ≤ (if tp.wnext = 0 then (g.pwins.length : Int) - 1
          else (tp.wnext : Int) - 1) := by
        by_cases hw : tp.wnext = 0
        · rw [if_pos hw]
          omega
        · rw [if_neg hw]
          have : 0 < tp.wnext := Nat.pos_of_ne_zero hw
          omega
      rw [if_pos hge, if_pos (hmask.mp hc)]
    · rw [if_neg hc]
      rw [if_neg (by decide : ¬ (0 : Int) ≤ -1),
        if_neg (fun hh => hc (hmask.mpr hh))]
  refine ⟨htr, ?_⟩
  intro f
  rw [htr]
  by_cases hc : currState &&& woso = woso ∧ currState &&& blockbits = 0 <;>
    simp [hc, insideCritical, List.takeWhile]

/-- C5 witness: a thread with exactly the weak-TP bit set (mask 8,
blocking mask 7) gets notified of overrunning window 0 when the timer
fires at 15 on the started scenario state, and the notification follows
the unlock. -/
theorem C5_overrun_notification_witness :
    (tp_tick_handler 8 7 8 15 demoStarted).2 =
      [Ev.lock, Ev.unlock, Ev.notify 0] ∧
    ¬ insideCritical (tp_tick_handler 8 7 8 15 demoStarted).2
        (Ev.notify 0) := by
  have h := C5_overrun_notification 8 7 8 15 demoStarted
    { pwins := [{ w_offset := 0, w_part := 0 }, { w_offset := 10, w_part := -1 },
                { w_offset := 15, w_part := 1 }],
      tf_duration := 25, refcount := 1 } (by decide) (by decide) (by decide)
  constructor
  · rw [h.1]
    decide
  · exact h.2 0

/-- `updAt` preserves the buffer length. -/
theorem updAt_length {α : Type} : ∀ (l : List α) (n : Nat) (f : α → α),
    (updAt l n f).length = l.length := by
  intro l
  induction l with
  | nil =>
    intro n f
    rfl
  | cons a t ih =>
    intro n f
    cases n with
    | zero => rfl
    | succ m => simp [updAt, ih]

/-- Reading back after an `updAt`: slot `i` (when in range) went through
`f`, every other slot is unchanged. -/
theorem updAt_getD {α : Type} : ∀ (l : List α) (i : Nat) (f : α → α)
    (j : Nat) (d : α),
    (updAt l i f).getD j d =
      if j = i ∧ j < l.length then f (l.getD j d) else l.getD j d := by
  intro l
  induction l with
  | nil =>
    intro i f j d
    simp [updAt]
  | cons a t ih =>
    intro i f j d
    cases i with
    | zero =>
      cases j with
      | zero => simp [updAt]
      | succ jj => simp [updAt]
    | succ ii =>
      cases j with
      | zero => simp [updAt]
      | succ jj =>
        simp only [updAt, List.getD_cons_succ, ih]
        by_cases h : jj = ii ∧ jj < t.length
        · rw [if_pos h, if_pos (by simp; omega)]
        · rw [if_neg h, if_neg (by simp; omega)]

/-- Reading a field that an `updAt` wrote: the projection pushed through
the conditional. -/
theorem getD_updAt_offset (l : List OutWindow) (i : Nat)
    (f : OutWindow → OutWindow) (j : Nat) (d : OutWindow) :
    ((updAt l i f).getD j d).offset =
      if j = i ∧ j < l.length then (f (l.getD j d)).offset
      else (l.getD j d).offset := by
  rw [updAt_getD, apply_ite OutWindow.offset]

/-- As `getD_updAt_offset`, for the duration field. -/
theorem getD_updAt_duration (l : List OutWindow) (i : Nat)
    (f : OutWindow → OutWindow) (j : Nat) (d : OutWindow) :
    ((updAt l i f).getD j d).duration =
      if j = i ∧ j < l.length then (f (l.getD j d)).duration
      else (l.getD j d).duration := by
  rw [updAt_getD, apply_ite OutWindow.duration]

/-- As `getD_updAt_offset`, for the partition-id field. -/
theorem getD_updAt_ptid (l : List OutWindow) (i : Nat)
    (f : OutWindow → OutWindow) (j : Nat) (d : OutWindow) :
    ((updAt l i f).getD j d).ptid =
      if j = i ∧ j < l.length then (f (l.getD j d)).ptid
      else (l.getD j d).ptid := by
  rw [updAt_getD, apply_ite OutWindow.ptid]

/-- Slot-wise offset written by the copy-out loop run over iterations
`[n, n + fuel)`: slot `j` receives window `j`'s offset exactly when the
loop visits it; other slots keep their previous offset. -/
theorem tpGetLoop_offset (pwins : List TpWindow) :
    ∀ (fuel n : Nat) (b : List OutWindow) (j : Nat) (d : OutWindow),
      ((tpGetLoop pwins fuel n b).getD j d).offset =
        if n ≤ j ∧ j < n + fuel ∧ j < b.length
        then (pwins.getD j dummyWin).w_offset else (b.getD j d).offset := by
  intro fuel
  induction fuel with
  | zero =>
    intro n b j d
    simp only [tpGetLoop]
    rw [if_neg (by omega)]
  | succ fuel ih =>
    intro n b j d
    simp only [tpGetLoop]
    rw [ih]
    simp only [updAt_length, getD_updAt_offset, ite_self]
    by_cases hjb : j < b.length
    case neg =>
      rw [if_neg (by omega), if_neg (by omega), if_neg (by omega)]
    case pos =>
      by_cases hjn : j = n
      · subst hjn
        rw [if_neg (by omega), if_pos ⟨rfl, hjb⟩, if_pos (by omega)]
      · by_cases hmid : n + 1 ≤ j ∧ j < n + 1 + fuel
        · rw [if_pos (by omega), if_pos (by omega)]
        · rw [if_neg (by omega), if_neg (by omega), if_neg (by omega)]

/-- Slot-wise partition id written by the copy-out loop, as
`tpGetLoop_offset`. -/
theorem tpGetLoop_ptid (pwins : List TpWindow) :
    ∀ (fuel n : Nat) (b : List OutWindow) (j : Nat) (d : OutWindow),
      ((tpGetLoop pwins fuel n b).getD j d).ptid =
        if n ≤ j ∧ j < n + fuel ∧ j < b.length
        then (pwins.getD j dummyWin).w_part else (b.getD j d).ptid := by
  intro fuel
  induction fuel with
  | zero =>
    intro n b j d
    simp only [tpGetLoop]
    rw [if_neg (by omega)]
  | succ fuel ih =>
    intro n b j d
    simp only [tpGetLoop]
    rw [ih]
    simp only [updAt_length, getD_updAt_ptid, ite_self]
    by_cases hjb : j < b.length
    case neg =>
      rw [if_neg (by omega), if_neg (by omega), if_neg (by omega)]
    case pos =>
      by_cases hjn : j = n
      · subst hjn
        rw [if_neg (by omega), if_pos ⟨rfl, hjb⟩, if_pos (by omega)]
      · by_cases hmid : n + 1 ≤ j ∧ j < n + 1 + fuel
        · rw [if_pos (by omega), if_pos (by omega)]
        · rw [if_neg (by omega), if_neg (by omega), if_neg (by omega)]

/-- Slot-wise duration written by the copy-out loop run over iterations
`[n, n + fuel)`: slot `j`'s duration is the offset delta
`pwins[j+1] - pwins[j]` stored by iteration `j + 1` when that iteration
runs; iteration 0, when executed, stores 0 into slot 0 (overwritten by
iteration 1 whenever it also runs); other slots are untouched. -/
theorem tpGetLoop_duration (pwins : List TpWindow) :
    ∀ (fuel n : Nat) (b : List OutWindow) (j : Nat) (d : OutWindow),
      ((tpGetLoop pwins fuel n b).getD j d).duration =
        if n ≤ j + 1 ∧ j + 1 < n + fuel ∧ j < b.length
        then (pwins.getD (j + 1) dummyWin).w_offset -
             (pwins.getD j dummyWin).w_offset
        else if j = 0 ∧ n = 0 ∧ 0 < fuel ∧ 0 < b.length
        then 0
        else (b.getD j d).duration := by
  intro fuel
  induction fuel with
  | zero =>
    intro n b j d
    simp only [tpGetLoop]
    rw [if_neg (by omega), if_neg (by omega)]
  | succ fuel ih =>
    intro n b j d
    simp only [tpGetLoop]
    rw [ih]
    simp only [updAt_length, getD_updAt_duration, ite_self]
    by_cases hjb : j < b.length
    case neg =>
      rw [if_neg (by omega), if_neg (by omega), if_neg (by omega),
        if_neg (by omega), if_neg (by omega)]
    case pos =>
      by_cases hD1 : n ≤ j ∧ j + 1 < n + fuel + 1
      · rw [if_pos (by omega), if_pos (by omega)]
      · by_cases hD2 : j = n - 1
        · by_cases hn : n = 0
          · subst hn
            rw [if_neg (by omega), if_neg (by omega), if_pos (by omega),
              if_neg (by omega), if_pos (by omega)]
            simp
          · rw [if_neg (by omega), if_neg (by omega), if_pos (by omega),
              if_pos (by omega)]
            rw [show j + 1 = n from by omega, show j = n - 1 from hD2]
        · rw [if_neg (by omega), if_neg (by omega), if_neg (by omega),
            if_neg (by omega), if_neg (by omega)]

/-- The copy-out loop never changes the buffer length. -/
theorem tpGetLoop_length (pwins : List TpWindow) :
    ∀ (fuel n : Nat) (b : List OutWindow),
      (tpGetLoop pwins fuel n b).length = b.length := by
  intro fuel
  induction fuel with
  | zero =>
    intro n b
    rfl
  | succ fuel ih =>
    intro n b
    simp only [tpGetLoop]
    rw [ih]
    simp only [updAt_length]

/-- Two info-buffer entries with equal fields are equal. -/
theorem outWindow_ext (x y : OutWindow) (h1 : x.offset = y.offset)
    (h2 : x.duration = y.duration) (h3 : x.ptid = y.ptid) : x = y := by
  cases x
  cases y
  simp_all

/-- Summing one more taken duration. -/
theorem sumDur_take_succ :
    ∀ (wins : List UserWindow) (k : Nat), k < wins.length →
      sumDur (wins.take (k + 1)) =
        sumDur (wins.take k) + (wins.getD k dummyUser).duration := by
  intro wins
  induction wins with
  | nil =>
    intro k hk
    simp at hk
  | cons p rest ih =>
    intro k hk
    cases k with
    | zero =>
      simp [sumDur]
    | succ kk =>
      simp only [List.take_succ_cons, sumDur_cons, List.getD_cons_succ]
      rw [ih kk (by simpa using hk)]
      ring

/-- The windows built by the validation loop: same count as the input
list, each carrying the accumulated offset and the input partition
id. -/
theorem buildWindows_elems (nrPart : Nat) :
    ∀ (wins : List UserWindow) (next : Int) (ws : List TpWindow) (fin : Int),
      buildWindows nrPart wins next = some (ws, fin) →
      ws.length = wins.length ∧
      ∀ k, k < wins.length →
        ws.getD k dummyWin =
          { w_offset := next + sumDur (wins.take k),
            w_part := (wins.getD k dummyUser).ptid } := by
  intro wins
  induction wins with
  | nil =>
    intro next ws fin h
    simp only [buildWindows, Option.some_inj, Prod.mk.injEq] at h
    refine ⟨by rw [← h.1]; rfl, ?_⟩
    intro k hk
    exact absurd hk (by simp)

  | cons p rest ih =>
    intro next ws fin h
    simp only [buildWindows] at h
    split_ifs at h
    cases hb : buildWindows nrPart rest (next + p.duration) with
    | none =>
      rw [hb] at h
      simp at h
    | some pr =>
      rw [hb] at h
      obtain ⟨ws', fin'⟩ := pr
      simp only [Option.some_inj, Prod.mk.injEq] at h
      obtain ⟨hws, hfin⟩ := h
      obtain ⟨hlen, hvals⟩ := ih (next + p.duration) ws' fin' hb
      constructor
      · rw [← hws]
        simp [hlen]
      · intro k hk
        rw [← hws]
        cases k with
        | zero =>
          simp [sumDur]
        | succ kk =>
          simp only [List.getD_cons_succ]
          rw [hvals kk (by simpa using hk)]
          simp only [List.take_succ_cons, sumDur_cons, TpWindow.mk.injEq]
          constructor
          · ring
          · trivial

/-- C6 counterexample: a `GetSchedule` requesting 0 windows on a CPU
with a 1-window table installed should, per the claim, copy out
`min(0, 1) = 0` entries — yet the trailing duration store of the
copy-out code writes the first buffer slot's duration field (with the
frame duration 5), so the caller's buffer does not stay untouched. -/
theorem C6_counterexample :
    min 0 (1 : Nat) = 0 ∧
    (tp_control 4 0 oneInstalled
      (TpCtl.get 0 [{ offset := 9, duration := 9, ptid := 9 }])).info =
      some (1, [{ offset := 9, duration := 5, ptid := 9 }]) ∧
    [({ offset := 9, duration := 5, ptid := 9 } : OutWindow)] ≠
      [({ offset := 9, duration := 9, ptid := 9 } : OutWindow)] := by
  refine ⟨rfl, by decide, by decide⟩

/-- C6 (amended): after a successful install of a valid window list, a
get requesting at least as many windows as were installed reports the
installed count and returns, for every window, exactly the installed
offset, partition id and duration (the derived offset deltas coincide
with the install-time durations), leaving buffer slots past the
installed count untouched; a get requesting at least one but fewer
windows copies only `min(max_windows, actual)` entries, leaving the
rest untouched; a get requesting zero windows copies no entry but still
overwrites the first slot's duration field with the frame duration; and
in every case the get leaves the per-CPU scheduling state (table, timer
and all) unchanged, its refcount bump being matched by a drop. -/
theorem C6_get_roundtrip (nrPart : Nat) (now : Int) (tp : EvlSchedTp)
    (wins : List UserWindow) (req : Nat) (buf : List OutWindow)
    (hval : specValidWindows nrPart wins = true) (hne : wins ≠ [])
    (hth : tp.threads = []) (s1 : EvlSchedTp) (r : CtlResult)
    (hs1 : s1 = (tp_control nrPart now tp (TpCtl.install wins)).tp)
    (hr : r = tp_control nrPart now s1 (TpCtl.get req buf)) :
    r.tp = s1 ∧
    (∀ cnt out, r.info = some (cnt, out) →
      cnt = wins.length ∧ out.length = buf.length) ∧
    (wins.length ≤ req →
      ∀ cnt out, r.info = some (cnt, out) →
        (∀ k d, k < wins.length → k < buf.length →
          out.getD k d =
            { offset := (wins.getD k dummyUser).offset,
              duration := (wins.getD k dummyUser).duration,
              ptid := (wins.getD k dummyUser).ptid }) ∧
        (∀ k d, wins.length ≤ k → out.getD k d = buf.getD k d)) ∧
    (1 ≤ req →
      ∀ cnt out, r.info = some (cnt, out) →
        ∀ k d, min req wins.length ≤ k → out.getD k d = buf.getD k d) ∧
    (req = 0 →
      r.info = some (wins.length,
        updAt buf 0 (fun s => { s with duration := sumDur wins }))) := by
  obtain ⟨pr, hb⟩ : ∃ pr, buildWindows nrPart wins 0 = some pr := by
    have hs := buildWindows_isSome nrPart wins 0
    rw [← specValid_eq_goodFrom, hval] at hs
    exact Option.isSome_iff_exists.mp hs
  obtain ⟨ws, fin⟩ := pr
  obtain ⟨hwlen, hwvals⟩ := buildWindows_elems nrPart wins 0 ws fin hb
  have hfin : fin = sumDur wins := by
    have := buildWindows_fin nrPart wins 0 ws fin hb
    omega
  have hoffs : ∀ i, i < wins.length →
      (wins.getD i dummyUser).offset = sumDur (wins.take i) := by
    have h := (goodFrom_iff nrPart wins 0).mp
      (by rw [← specValid_eq_goodFrom]; exact hval)
    intro i hi
    have := h.1 i hi
    omega
  have hN : 0 < wins.length := List.length_pos.mpr hne
  have hwarn : setWarnCond
      (some { pwins := ws, tf_duration := fin, refcount := 1 }) = false := by
    obtain ⟨p0, rest0, hwsplit⟩ : ∃ p rest, wins = p :: rest := by
      cases wins with
      | nil => exact absurd rfl hne
      | cons p rest => exact ⟨p, rest, rfl⟩
    obtain ⟨ws', hws⟩ := buildWindows_head nrPart p0 rest0 0 ws fin
      (by rw [← hwsplit]; exact hb)
    rw [hws]
    simp [setWarnCond, dummyWin]
  have hs1' : s1 = { stop_tp_schedule tp with
      gps := some { pwins := ws, tf_duration := fin, refcount := 1 } } := by
    rw [hs1]
    simp only [tp_control]
    rw [if_pos (by omega), hb]
    simp only [switchSchedule, set_tp_schedule, hwarn, Bool.false_eq_true,
      if_false, if_neg (by rw [hth]; simp : ¬ tp.threads ≠ [])]
  have hgps : s1.gps =
      some { pwins := ws, tf_duration := fin, refcount := 1 } := by
    rw [hs1']
  have hrc : ({ pwins := ws, tf_duration := fin, refcount := (1 : Int) + 1 - 1 } : TpSchedule) = { pwins := ws, tf_duration := fin, refcount := 1 } := by
    norm_num
  have hrtp : r.tp = s1 := by
    rw [hr]
    simp only [tp_control, hgps]
    rw [hrc, ← hgps]
  have hinfo : r.info = some (tpGetFill
      { pwins := ws, tf_duration := fin, refcount := (1 : Int) + 1 } req buf) := by
    rw [hr]
    simp only [tp_control, hgps]
  have hfill : tpGetFill
      { pwins := ws, tf_duration := fin, refcount := (1 : Int) + 1 } req buf =
      (ws.length,
       updAt (tpGetLoop ws (min req ws.length) 0 buf) (min req ws.length - 1)
         (fun s => { s with duration :=
           fin - (ws.getD (min req ws.length - 1) dummyWin).w_offset })) := rfl
  refine ⟨hrtp, ?_, ?_, ?_, ?_⟩
  · intro cnt out hio
    rw [hinfo, hfill] at hio
    simp only [Option.some_inj, Prod.mk.injEq] at hio
    refine ⟨by rw [← hio.1, hwlen], ?_⟩
    rw [← hio.2, updAt_length, tpGetLoop_length]
  · intro hreq cnt out hio
    rw [hinfo, hfill] at hio
    simp only [Option.some_inj, Prod.mk.injEq] at hio
    have hm : min req ws.length = wins.length := by omega
    rw [hm] at hio
    constructor
    · intro k d hk hkb
      rw [← hio.2]
      apply outWindow_ext
      · simp only [getD_updAt_offset, ite_self]
        rw [tpGetLoop_offset, if_pos ⟨by omega, by omega, hkb⟩, hwvals k hk,
          hoffs k hk]
        show 0 + sumDur (wins.take k) = sumDur (wins.take k)
        omega
      · rw [getD_updAt_duration]
        by_cases hlast : k = wins.length - 1
        · rw [if_pos ⟨hlast, by rw [tpGetLoop_length]; omega⟩]
          show fin - (ws.getD (wins.length - 1) dummyWin).w_offset =
            (wins.getD k dummyUser).duration
          rw [hwvals (wins.length - 1) (by omega)]
          show fin - (0 + sumDur (wins.take (wins.length - 1))) =
            (wins.getD k dummyUser).duration
          have hsucc := sumDur_take_succ wins (wins.length - 1) (by omega)
          rw [show wins.length - 1 + 1 = wins.length from by omega,
            List.take_length] at hsucc
          rw [hlast]
          omega
        · rw [if_neg (fun hcon => hlast hcon.1), tpGetLoop_duration,
            if_pos ⟨by omega, by omega, hkb⟩]
          rw [hwvals (k + 1) (by omega), hwvals k hk]
          show 0 + sumDur (wins.take (k + 1)) - (0 + sumDur (wins.take k)) =
            (wins.getD k dummyUser).duration
          have hsucc := sumDur_take_succ wins k hk
          omega
      · simp only [getD_updAt_ptid, ite_self]
        rw [tpGetLoop_ptid, if_pos ⟨by omega, by omega, hkb⟩, hwvals k hk]
    · intro k d hk
      rw [← hio.2]
      apply outWindow_ext
      · simp only [getD_updAt_offset, ite_self]
        rw [tpGetLoop_offset, if_neg (by omega)]
      · rw [getD_updAt_duration, if_neg (by omega), tpGetLoop_duration,
          if_neg (by omega), if_neg (by omega)]
      · simp only [getD_updAt_ptid, ite_self]
        rw [tpGetLoop_ptid, if_neg (by omega)]
  · intro hreq cnt out hio
    rw [hinfo, hfill] at hio
    simp only [Option.some_inj, Prod.mk.injEq] at hio
    rw [hwlen] at hio
    intro k d hk
    have hmin1 : 1 ≤ min req wins.length := by omega
    rw [← hio.2]
    apply outWindow_ext
    · simp only [getD_updAt_offset, ite_self]
      rw [tpGetLoop_offset, if_neg (by omega)]
    · rw [getD_updAt_duration, if_neg (by omega), tpGetLoop_duration,
        if_neg (by omega), if_neg (by omega)]
    · simp only [getD_updAt_ptid, ite_self]
      rw [tpGetLoop_ptid, if_neg (by omega)]
  · intro hreq
    subst hreq
    rw [hinfo, hfill]
    have hm0 : min 0 ws.length = 0 := by omega
    rw [hm0]
    simp only [tpGetLoop, Nat.zero_sub]
    simp only [hwvals 0 hN]
    have hfun : (fun (s : OutWindow) => ({ s with duration := fin - (0 + sumDur (wins.take 0)) } : OutWindow)) = (fun (s : OutWindow) => ({ s with duration := sumDur wins } : OutWindow)) := by
      funext s
      simp [sumDur, hfin]
    rw [hfun, hwlen]

/-- C6 witness: a get for 3 windows right after installing the scenario
schedule returns the three installed windows with their install-time
durations and leaves the state unchanged. -/
theorem C6_get_roundtrip_witness :
    (tp_control 4 0 demoInstalled
      (TpCtl.get 3 [{ offset := 9, duration := 9, ptid := 9 },
                    { offset := 8, duration := 8, ptid := 8 },
                    { offset := 7, duration := 7, ptid := 7 }])).tp =
      demoInstalled ∧
    (tp_control 4 0 demoInstalled
      (TpCtl.get 3 [{ offset := 9, duration := 9, ptid := 9 },
                    { offset := 8, duration := 8, ptid := 8 },
                    { offset := 7, duration := 7, ptid := 7 }])).info =
      some (3, [{ offset := 0, duration := 10, ptid := 0 },
                { offset := 10, duration := 5, ptid := -1 },
                { offset := 15, duration := 10, ptid := 1 }]) := by
  have h := C6_get_roundtrip 4 0 (tp_init 4) demoWins 3
    [{ offset := 9, duration := 9, ptid := 9 },
     { offset := 8, duration := 8, ptid := 8 },
     { offset := 7, duration := 7, ptid := 7 }]
    (by decide) (by decide) (by decide) demoInstalled
    (tp_control 4 0 demoInstalled
      (TpCtl.get 3 [{ offset := 9, duration := 9, ptid := 9 },
                    { offset := 8, duration := 8, ptid := 8 },
                    { offset := 7, duration := 7, ptid := 7 }]))
    rfl rfl
  exact ⟨h.1, by decide⟩

/-- C7: any `tp_trackprio` call changes only the thread's current
priority — to the supplied priority when parameters are given, to the
base priority when they are absent — so the partition assignment (and
every other field) survives any sequence of boost/restore calls. -/
theorem C7_trackprio_partition_immutable :
    (∀ (th : EvlThread) (p : Option (Int × Int)),
      tp_trackprio th p =
        { th with cprio := match p with | some q => q.1 | none => th.bprio }) ∧
    (∀ (th : EvlThread) (ps : List (Option (Int × Int))),
      (ps.foldl tp_trackprio th).tps = th.tps) := by
  have h1 : ∀ (th : EvlThread) (p : Option (Int × Int)),
      tp_trackprio th p =
        { th with cprio := match p with | some q => q.1 | none => th.bprio } := by
    intro th p
    cases p <;> rfl
  refine ⟨h1, ?_⟩
  intro th ps
  induction ps generalizing th with
  | nil => rfl
  | cons p rest ih => rw [List.foldl_cons, ih, h1]

/-- C8: `tp_pick` yields no thread whenever the frame timer is not
running — in particular right after `stop_tp_schedule` on an installed
table, whatever the partition queues hold — and with the timer running
it yields the head of the active partition's queue; during an idle
window the (always empty, preserved by `tp_enqueue` of any real
partition) idle queue is polled, yielding nothing. -/
theorem C8_pick_gated_by_timer (tp : EvlSchedTp) :
    (tp.timer_running = false → tp_pick tp = none) ∧
    (tp.gps.isSome = true → tp_pick (stop_tp_schedule tp) = none) ∧
    (∀ p : Int, tp.timer_running = true → tp.tps = some p → 0 ≤ p →
      tp_pick tp = (tp.partitions.getD p.toNat []).head?) ∧
    (tp.timer_running = true → tp.tps = some (-1) → tp.idleq = [] →
      tp_pick tp = none) ∧
    (∀ (tid : Nat) (ptid : Int), 0 ≤ ptid →
      (tp_enqueue tid ptid tp).idleq = tp.idleq) := by
  refine ⟨?_, ?_, ?_, ?_, ?_⟩
  · intro h
    simp [tp_pick, h]
  · intro h
    simp [tp_pick, stop_tp_schedule, h]
  · intro p hrun htps hp
    simp [tp_pick, hrun, htps, Int.not_lt.mpr hp]
  · intro hrun htps hidle
    simp [tp_pick, hrun, htps, hidle]
  · intro tid ptid hp
    simp [tp_enqueue, Int.not_lt.mpr hp]

/-- C8 witness: on the concrete stopped/running/idle demo states the
gate behaves as stated. -/
theorem C8_pick_gated_by_timer_witness :
    tp_pick pickDemoStopped = none ∧
    tp_pick pickDemoRunning = some 7 ∧
    tp_pick pickDemoIdle = none ∧
    (tp_enqueue 9 1 pickDemoRunning).idleq = pickDemoRunning.idleq := by
  refine ⟨(C8_pick_gated_by_timer pickDemoStopped).1 rfl, ?_, ?_, ?_⟩
  · have h := (C8_pick_gated_by_timer pickDemoRunning).2.2.1 0 rfl rfl
      (by decide)
    rw [h]
    decide
  · exact (C8_pick_gated_by_timer pickDemoIdle).2.2.2.1 rfl rfl rfl
  · exact (C8_pick_gated_by_timer pickDemoRunning).2.2.2.2 9 1 (by decide)

/-- C9: an install request with a zero window count is handled exactly
like an uninstall request: identical result state, return value, info
and event trace (hence the same Busy guard and old-table reference
drop). -/
theorem C9_empty_install_is_uninstall (nrPart : Nat) (now : Int)
    (tp : EvlSchedTp) :
    tp_control nrPart now tp (TpCtl.install []) =
      tp_control nrPart now tp TpCtl.uninstall := rfl

/-- C10: `tp_chkparam` returns `-EINVAL` whenever no schedule table is
installed on the thread's CPU, for every supplied priority and
partition id. -/
theorem C10_chkparam_requires_table (minPrio maxPrio : Int) (nrPart : Nat)
    (tp : EvlSchedTp) (prio ptid : Int) (h : tp.gps = none) :
    tp_chkparam minPrio maxPrio nrPart tp prio ptid = -EINVAL := by
  simp [tp_chkparam, h]

/-- C10 witness: even a priority inside `[1, 255]` and a partition id
inside `[0, 4)` are rejected on a table-less CPU. -/
theorem C10_chkparam_requires_table_witness :
    (1 : Int) ≤ 3 ∧ (3 : Int) ≤ 255 ∧ (0 : Int) ≤ 2 ∧ (2 : Int) < 4 ∧
    tp_chkparam 1 255 4 (tp_init 4) 3 2 = -EINVAL :=
  ⟨by decide, by decide, by decide, by decide,
   C10_chkparam_requires_table 1 255 4 (tp_init 4) 3 2 rfl⟩

end EvlTp
